import Mathlib

/-!
Verification of the QuizPocker round engine against its specification.

The definitions below are a shallow embedding of the TypeScript sources:
`src/core/BettingManager.ts`, `src/core/GamePhaseManager.ts`,
`src/core/GameValidator.ts`, `src/core/Game.ts`, the `WinnerDeterminator`
and `GameTimerManager` manager classes, and the type declarations in
`src/types`.  JavaScript numbers are modelled as rationals (`ℚ`); the
value `-Infinity` produced by `Math.max` of an empty spread is modelled
as the bottom element of `WithBot ℚ`.  Player ids are strings.
-/

namespace QuizPoker

/-- `PlayerStatus` enum from `src/types/player.ts`. -/
inductive PlayerStatus where
  | active
  | folded
  | all_in
  | waiting
  | acting
  | eliminated
deriving DecidableEq, Repr

/-- `BettingAction` enum from `src/types/player.ts`. -/
inductive BettingAction where
  | check
  | call
  | raise
  | all_in
  | fold
  | answer
deriving DecidableEq, Repr

/-- The per-round mutable state of a `Player` (`src/types/player.ts`).
Statistics fields (`stats`) are omitted: no claim refers to them. -/
structure Player where
  id : String
  stack : ℚ
  currentBet : ℚ
  totalBetInRound : ℚ
  isAllIn : Bool
  status : PlayerStatus
  answer : Option ℚ := none
deriving DecidableEq, Repr

/-- A side pot entry (`src/types/round.ts`, used by
`BettingManager.createSidePot`). -/
structure SidePot where
  amount : ℚ
  eligiblePlayers : List String
  createdBy : String
deriving DecidableEq, Repr

/-- The pot ledger of a round (`RoundPot` in `src/types/round.ts`). -/
structure RoundPot where
  mainPot : ℚ
  sidePots : List SidePot
  totalPot : ℚ
deriving DecidableEq, Repr

/-- The `RoundPhase` enum from `src/types/round.ts`, in declaration
order: `ANTE, QUESTION1, BETTING1, QUESTION2, BETTING2, REVEAL,
BETTING3, SHOWDOWN, FINISHED`.  `Object.values(RoundPhase)` enumerates
the members in exactly this order. -/
inductive RoundPhase where
  | ANTE
  | QUESTION1
  | BETTING1
  | QUESTION2
  | BETTING2
  | REVEAL
  | BETTING3
  | SHOWDOWN
  | FINISHED
deriving DecidableEq, Repr

/-- `Object.values(RoundPhase)[i+1]`: the successor in declaration order
(`FINISHED` has no successor, callers guard on the index). -/
def RoundPhase.next : RoundPhase → RoundPhase
  | .ANTE => .QUESTION1
  | .QUESTION1 => .BETTING1
  | .BETTING1 => .QUESTION2
  | .QUESTION2 => .BETTING2
  | .BETTING2 => .REVEAL
  | .REVEAL => .BETTING3
  | .BETTING3 => .SHOWDOWN
  | .SHOWDOWN => .FINISHED
  | .FINISHED => .FINISHED

/-- A question (`src/types/game.ts`): only the numeric correct answer is
relevant to the claims. -/
structure Question where
  correctAnswer : ℚ
deriving DecidableEq, Repr

/-- The round state (`src/types/round.ts`): phase, the fixed player
list (`activePlayers`), the pot ledger, the question and the ante
setting.  The action history and timing fields are not referenced by
any claim and are omitted. -/
structure Round where
  currentPhase : RoundPhase
  activePlayers : List Player
  pot : RoundPot
  question : Option Question := none
  anteSize : ℚ
deriving DecidableEq, Repr

/-- `Math.max(...xs)` over a list of numbers: `-Infinity` (⊥) on the
empty spread. -/
def jsMax (xs : List ℚ) : WithBot ℚ :=
  xs.foldr (fun a b => max (a : WithBot ℚ) b) ⊥

/-- `BettingManager.getCurrentBet` (`src/core/BettingManager.ts` lines
225-230): returns `0` when no round is set, otherwise
`Math.max(...activePlayers.map(p => p.currentBet))` — which is
`-Infinity` when `activePlayers` is empty. -/
def BettingManager.getCurrentBet : Option Round → WithBot ℚ
  | none => (0 : ℚ)
  | some r => jsMax (r.activePlayers.map (·.currentBet))

/-- `GameValidator.getCurrentBet` (`src/core/GameValidator.ts` lines
451-454): returns `0` for an empty `activePlayers` list, otherwise the
maximum current bet. -/
def GameValidator.getCurrentBet (r : Round) : ℚ :=
  if r.activePlayers = [] then 0
  else (jsMax (r.activePlayers.map (·.currentBet))).unbot' 0

/-- A player action record (`PlayerAction` in `src/types/player.ts`);
the timestamp is irrelevant to the claims. -/
structure PlayerAction where
  playerId : String
  type : BettingAction
  amount : Option ℚ := none
  answer : Option ℚ := none
deriving DecidableEq, Repr

/-- `BettingManager.validateSpecificAction` (`src/core/BettingManager.ts`
lines 70-103), with `currentBet = this.getCurrentBet()`.  Comparisons
against a possibly `-Infinity` current bet follow JavaScript semantics:
a finite number never equals `-Infinity`, is never below it, and is
always above it. -/
def BettingManager.validateSpecificAction (r : Round) (p : Player)
    (action : PlayerAction) : Bool :=
  let currentBet := BettingManager.getCurrentBet (some r)
  match action.type with
  | .check => (p.currentBet : WithBot ℚ) = currentBet
  | .call => (p.currentBet : WithBot ℚ) < currentBet && p.stack > 0
  | .raise =>
      match action.amount with
      | none => false
      | some amount =>
          (amount : WithBot ℚ) > currentBet && p.stack ≥ amount - p.currentBet
  | .all_in => p.stack > 0
  | .fold => true
  | .answer => false

/-- Replace the first player with the given id (the TypeScript code
mutates the `Player` object held in `round.activePlayers`). -/
def updateFirst (ps : List Player) (pid : String) (f : Player → Player) :
    List Player :=
  match ps with
  | [] => []
  | p :: rest =>
      if p.id = pid then f p :: rest else p :: updateFirst rest pid f

/-- Find a player of the round by id (`players.find(...)`). -/
def findPlayer (ps : List Player) (pid : String) : Option Player :=
  ps.find? (·.id = pid)

/-- The state change of one ante posting for a single player inside the
loop of `BettingManager.processAntePhase` (lines 35-49). -/
def anteStep (anteSize : ℚ) (p : Player) : Player :=
  let anteAmount := min p.stack anteSize
  let stack' := p.stack - anteAmount
  { p with
    stack := stack'
    currentBet := anteAmount
    totalBetInRound := anteAmount
    isAllIn := stack' = 0
    status := if stack' = 0 then .all_in else .active }

/-- `BettingManager.processAntePhase` (`src/core/BettingManager.ts`
lines 29-56): every player posts `min(stack, anteSize)`; the loop adds
each posted ante to `mainPot` and `totalPot`. -/
def processAntePhase (r : Round) : Round :=
  let ante := r.anteSize
  let total := (r.activePlayers.map (fun p => min p.stack ante)).sum
  { r with
    activePlayers := r.activePlayers.map (anteStep ante)
    pot := { r.pot with
      mainPot := r.pot.mainPot + total
      totalPot := r.pot.totalPot + total } }

/-- The player-side mutation of `BettingManager.processCall`
(lines 160-176), given the computed actual call amount. -/
def callStep (actualCall : ℚ) (p : Player) : Player :=
  let stack' := p.stack - actualCall
  { p with
    stack := stack'
    currentBet := p.currentBet + actualCall
    totalBetInRound := p.totalBetInRound + actualCall
    isAllIn := if stack' = 0 then true else p.isAllIn
    status := if stack' = 0 then .all_in else p.status }

/-- `BettingManager.processCall` (`src/core/BettingManager.ts` lines
160-176).  `callAmount = getCurrentBet() - player.currentBet`; the ⊥
branch is unreachable through `processAction`, because CALL validation
requires `player.currentBet < getCurrentBet()`. -/
def processCall (r : Round) (pid : String) : Round :=
  match BettingManager.getCurrentBet (some r) with
  | ⊥ => r
  | (cb : ℚ) =>
      match findPlayer r.activePlayers pid with
      | none => r
      | some p =>
          let callAmount := cb - p.currentBet
          let actualCall := min callAmount p.stack
          { r with
            activePlayers := updateFirst r.activePlayers pid (callStep actualCall)
            pot := { r.pot with
              mainPot := r.pot.mainPot + actualCall
              totalPot := r.pot.totalPot + actualCall } }

/-- The player-side mutation of `BettingManager.processRaise`
(lines 181-195). -/
def raiseStep (raiseAmount : ℚ) (p : Player) : Player :=
  let totalBetAmount := raiseAmount - p.currentBet
  let stack' := p.stack - totalBetAmount
  { p with
    stack := stack'
    currentBet := raiseAmount
    totalBetInRound := p.totalBetInRound + totalBetAmount
    isAllIn := if stack' = 0 then true else p.isAllIn
    status := if stack' = 0 then .all_in else p.status }

/-- `BettingManager.processRaise` (`src/core/BettingManager.ts` lines
181-195): posts `raiseAmount - player.currentBet`. -/
def processRaise (r : Round) (pid : String) (raiseAmount : ℚ) : Round :=
  match findPlayer r.activePlayers pid with
  | none => r
  | some p =>
      let totalBetAmount := raiseAmount - p.currentBet
      { r with
        activePlayers := updateFirst r.activePlayers pid (raiseStep raiseAmount)
        pot := { r.pot with
          mainPot := r.pot.mainPot + totalBetAmount
          totalPot := r.pot.totalPot + totalBetAmount } }

/-- The player-side mutation of `BettingManager.processAllIn`
(lines 200-212). -/
def allInStep (p : Player) : Player :=
  { p with
    stack := 0
    currentBet := p.currentBet + p.stack
    totalBetInRound := p.totalBetInRound + p.stack
    isAllIn := true
    status := .all_in }

/-- `BettingManager.processAllIn` (`src/core/BettingManager.ts` lines
200-212): posts the player's entire remaining stack. -/
def processAllIn (r : Round) (pid : String) : Round :=
  match findPlayer r.activePlayers pid with
  | none => r
  | some p =>
      { r with
        activePlayers := updateFirst r.activePlayers pid allInStep
        pot := { r.pot with
          mainPot := r.pot.mainPot + p.stack
          totalPot := r.pot.totalPot + p.stack } }

/-- `BettingManager.processFold` (lines 217-220): only the status
changes; chips already contributed stay in the pot. -/
def processFold (r : Round) (pid : String) : Round :=
  { r with
    activePlayers :=
      updateFirst r.activePlayers pid (fun p => { p with status := .folded }) }

/-- `BettingManager.processAction` (`src/core/BettingManager.ts` lines
108-155): validates the action and, when valid, applies the
corresponding state change; an invalid action leaves the round
unchanged (the function only returns `false`). -/
def processAction (r : Round) (action : PlayerAction) : Round :=
  match findPlayer r.activePlayers action.playerId with
  | none => r
  | some p =>
      if BettingManager.validateSpecificAction r p action then
        match action.type with
        | .check => r
        | .call => processCall r action.playerId
        | .raise =>
            match action.amount with
            | some amount => processRaise r action.playerId amount
            | none => r
        | .all_in => processAllIn r action.playerId
        | .fold => processFold r action.playerId
        | .answer => r
      else r

/-- `BettingManager.createSidePot` (`src/core/BettingManager.ts` lines
290-312): the acknowledged placeholder.  It pushes one side pot of
`allInPlayer.currentBet × (number of non-folded players)` without
touching the main pot. -/
def createSidePot (r : Round) (allInPlayer : Player) : Round :=
  let eligiblePlayers :=
    (r.activePlayers.filter (·.status ≠ PlayerStatus.folded)).map (·.id)
  let sidePot : SidePot :=
    { amount := allInPlayer.currentBet * eligiblePlayers.length
      eligiblePlayers := eligiblePlayers
      createdBy := allInPlayer.id }
  { r with pot := { r.pot with sidePots := r.pot.sidePots ++ [sidePot] } }

/-- `BettingManager.isBettingComplete` (`src/core/BettingManager.ts`
lines 253-268): `true` with no round set; `true` when at most one
non-folded player remains; otherwise `true` iff no non-folded,
non-all-in player's current bet is below the maximum current bet. -/
def isBettingComplete : Option Round → Bool
  | none => true
  | some r =>
      let activePlayers := r.activePlayers.filter (·.status ≠ PlayerStatus.folded)
      if activePlayers.length ≤ 1 then true
      else
        let currentBet := BettingManager.getCurrentBet (some r)
        let playersCanAct := activePlayers.filter
          (fun p => (p.currentBet : WithBot ℚ) < currentBet && !p.isAllIn)
        playersCanAct.length = 0

/-- A winner entry (`RoundWinner` in `src/types/round.ts`). -/
structure RoundWinner where
  playerId : String
  winAmount : ℚ
  potType : String
  accuracy : ℚ
  deviation : ℚ
deriving DecidableEq, Repr

/-- `Math.round(x)` in JavaScript: `⌊x + 1/2⌋` (half rounds toward
`+∞`). -/
def jsRound (q : ℚ) : ℤ := ⌊q + 1 / 2⌋

/-- `WinnerDeterminator.calculateAccuracy` (manager source lines
186-198): `100 - (deviation / max(correctAnswer, 100)) * 100`, clamped
at `0` and rounded to two decimal places via
`Math.round(accuracy * 100) / 100`. -/
def calculateAccuracy (correctAnswer playerAnswer : ℚ) : ℚ :=
  let deviation := |correctAnswer - playerAnswer|
  let maxDeviation := max correctAnswer 100
  let accuracy := max 0 (100 - deviation / maxDeviation * 100)
  (jsRound (accuracy * 100) : ℚ) / 100

/-- The inline accuracy computation of `Game.determineWinners`
(`src/core/Game.ts` lines 682-685): `Math.max(0, 100 -
Math.abs(correctAnswer - player.answer))`, with no normalization
factor. -/
def gameAccuracy (correctAnswer playerAnswer : ℚ) : ℚ :=
  max 0 (100 - |correctAnswer - playerAnswer|)

/-- The accuracy formula exactly as the spec words it:
`accuracy = max(0, 100 − (deviation / normalizationFactor) × 100)`
with `normalizationFactor = max(correctAnswer, 100)`. -/
def specAccuracy (correctAnswer playerAnswer : ℚ) : ℚ :=
  let deviation := |correctAnswer - playerAnswer|
  let normalizationFactor := max correctAnswer 100
  max 0 (100 - deviation / normalizationFactor * 100)

/-- The players considered by `WinnerDeterminator.determineWinners`:
not folded and with a submitted answer. -/
def eligibleForShowdown (r : Round) : List Player :=
  r.activePlayers.filter
    (fun p => p.status ≠ PlayerStatus.folded && p.answer ≠ none)

/-- Deviation of a player's answer (`Math.abs(correctAnswer -
player.answer)`); the `answer!` non-null assertion is modelled with
default `0`, callers only apply it to players with an answer. -/
def deviationOf (correctAnswer : ℚ) (p : Player) : ℚ :=
  |correctAnswer - (p.answer.getD 0)|

/-- `Math.min(...)` over a nonempty list, as used for the minimum
deviation (the empty case is guarded out by the source). -/
def jsMinPos (x : ℚ) (xs : List ℚ) : ℚ := xs.foldl min x

/-- `WinnerDeterminator.determineWinners` (manager source lines 24-60):
among non-folded players with an answer, keep exactly those whose
deviation equals the minimum deviation; each receives
`Math.floor(totalPot / winners.length)` from the main pot. -/
def determineWinners (r : Round) : List RoundWinner :=
  match r.question with
  | none => []
  | some q =>
      let correctAnswer := q.correctAnswer
      match eligibleForShowdown r with
      | [] => []
      | p₀ :: rest =>
          let minDeviation :=
            jsMinPos (deviationOf correctAnswer p₀)
              (rest.map (deviationOf correctAnswer))
          let winners := (p₀ :: rest).filter
            (fun p => deviationOf correctAnswer p = minDeviation)
          let winAmountPerWinner : ℚ :=
            (⌊r.pot.totalPot / (winners.length : ℚ)⌋ : ℤ)
          winners.map (fun p =>
            { playerId := p.id
              winAmount := winAmountPerWinner
              potType := "main"
              accuracy := calculateAccuracy correctAnswer (p.answer.getD 0)
              deviation := deviationOf correctAnswer p })

/-- `WinnerDeterminator.determineSidePotWinner` (manager source lines
111-141): a linear scan keeping the first player whose deviation is
strictly smaller than the best so far; the single returned winner
receives the whole side-pot amount. -/
def determineSidePotWinner (eligiblePlayers : List Player)
    (correctAnswer potAmount : ℚ) : Option RoundWinner :=
  match eligiblePlayers with
  | [] => none
  | best :: rest =>
      let chosen := rest.foldl
        (fun acc p =>
          if deviationOf correctAnswer p < deviationOf correctAnswer acc
          then p else acc) best
      some
        { playerId := chosen.id
          winAmount := potAmount
          potType := "side"
          accuracy := calculateAccuracy correctAnswer (chosen.answer.getD 0)
          deviation := deviationOf correctAnswer chosen }

/-- The eligible players of one side pot inside
`determineWinnersWithSidePots` (manager source lines 77-83). -/
def sidePotEligible (r : Round) (sp : SidePot) : List Player :=
  r.activePlayers.filter
    (fun p => sp.eligiblePlayers.contains p.id
      && p.status ≠ PlayerStatus.folded && p.answer ≠ none)

/-- `WinnerDeterminator.determineWinnersWithSidePots` (manager source
lines 65-106): main-pot winners, then per side pot the single
`determineSidePotWinner` result when the tier has at least one eligible
answer-haver. -/
def determineWinnersWithSidePots (r : Round) : List RoundWinner :=
  let mainWinners := determineWinners r
  let correctAnswer := (r.question.map (·.correctAnswer)).getD 0
  let sidePotWinners := r.pot.sidePots.foldl
    (fun acc sp =>
      let elig := sidePotEligible r sp
      if elig.length > 0 then
        match determineSidePotWinner elig correctAnswer sp.amount with
        | some w => acc ++ [w]
        | none => acc
      else acc) []
  mainWinners ++ sidePotWinners

/-- `GameValidator.validateRaise` (`src/core/GameValidator.ts` lines
252-293): amount present, above the current bet, affordable
(`stack ≥ amount - currentBet`), and at least `currentBet + anteSize`
(the minimum-raise rule).  `true` means `isValid`. -/
def GameValidator.validateRaise (anteSize : ℚ) (p : Player)
    (amount : Option ℚ) (currentBet : ℚ) : Bool :=
  match amount with
  | none => false
  | some a =>
      if a ≤ currentBet then false
      else if p.stack < a - p.currentBet then false
      else if a < currentBet + anteSize then false
      else true

/-- The RAISE case of `Game.validateSpecificAction` (`src/core/Game.ts`
lines 568-573): amount present, above the current bet, and
`stack ≥ amount` (the whole amount, not the delta). -/
def GameRaiseValid (p : Player) (amount : Option ℚ)
    (currentBet : WithBot ℚ) : Bool :=
  match amount with
  | none => false
  | some a => (a : WithBot ℚ) > currentBet && p.stack ≥ a

/-- One pot tier of the spec's side-pot construction: for boundary `b`
with previous boundary `prev`, the pot amount is
`(b - prev) × (number of contributors with totalBetInRound ≥ b)` and
the eligible players are the non-folded contributors with
`totalBetInRound ≥ prev` (the tier's lower bound). -/
def tierPots (contrib : List Player) : ℚ → List ℚ → List (ℚ × List String)
  | _, [] => []
  | prev, b :: rest =>
      ((b - prev) * ((contrib.countP (fun p => b ≤ p.totalBetInRound) : ℕ) : ℚ),
        ((contrib.filter
          (fun p => prev ≤ p.totalBetInRound
            && p.status ≠ PlayerStatus.folded)).map (·.id)))
        :: tierPots contrib b rest

/-- Modelled from the spec: `buildSidePots` of the Pot Ledger (§4.1) has
no implementation in the sources (`BettingManager.createSidePot` is the
acknowledged flat placeholder).  Following the spec's words: sort the
contributing players' all-in amounts ascending; each distinct tier
boundary (the all-in amounts, closed off by the highest contribution)
forms one pot of `(tier − previous tier) × (players contributing ≥
tier)`; the first (lowest) tier is the main pot, the rest are side
pots. -/
def specBuildPots (ps : List Player) : List (ℚ × List String) :=
  let contrib := ps.filter (fun p => 0 < p.totalBetInRound)
  let allInAmounts := (contrib.filter (·.isAllIn)).map (·.totalBetInRound)
  let ceiling := (contrib.map (·.totalBetInRound)).foldr max 0
  let boundaries := ((allInAmounts ++ [ceiling]).dedup).insertionSort (· ≤ ·)
  tierPots contrib 0 boundaries

/-- One betting-engine operation of the kind quantified over by the
chip-conservation claim: ante collection, a player action, or a
`createSidePot` call for a player of the round. -/
inductive BetOp where
  | ante
  | act (a : PlayerAction)
  | sidePot (pid : String)
deriving DecidableEq, Repr

/-- Apply one betting-engine operation to a round. -/
def applyOp (r : Round) : BetOp → Round
  | .ante => processAntePhase r
  | .act a => processAction r a
  | .sidePot pid =>
      match findPlayer r.activePlayers pid with
      | some p => createSidePot r p
      | none => r

/-- Run a sequence of betting-engine operations. -/
def runOps (r : Round) (ops : List BetOp) : Round := ops.foldl applyOp r

/-- The combined pot ledger: main pot plus all side-pot amounts. -/
def ledgerTotal (r : Round) : ℚ :=
  r.pot.mainPot + (r.pot.sidePots.map (·.amount)).sum

/-- Sum of the players' total bets in the round. -/
def contributedTotal (r : Round) : ℚ :=
  (r.activePlayers.map (·.totalBetInRound)).sum

/-- The main-pot side of the ledger matches the players' contributions. -/
def potBalanced (r : Round) : Prop :=
  r.pot.mainPot = contributedTotal r

/-! ### Timer scheduler (`GameTimerManager`)

A logical model of the manager: `timeouts` is the `timers` map of
scheduled `setTimeout` handles — the stored flag records which closure
was scheduled (`true` for the `startTimer` closure, which invokes the
user expiry callback, `false` for the `resumeTimer` closure, which only
emits the `timer_expired` event); `states` is the `timerStates` map;
`invoked` logs every invocation of a user expiry callback; `now` is the
logical wall clock read by `Date.now()`. -/

/-- A `TimerState` entry (`GameTimerManager`): the fields the claims
depend on. -/
structure TimerEntry where
  isActive : Bool
  startedAt : ℚ
  duration : ℚ
  remainingTime : ℚ
deriving DecidableEq, Repr

/-- The logical state of a `GameTimerManager`. -/
structure TMState where
  timeouts : String → Option Bool
  states : String → Option TimerEntry
  invoked : List String
  now : ℚ

/-- Pointwise map update. -/
def setMap {β : Type} (m : String → Option β) (k : String) (v : Option β) :
    String → Option β :=
  fun k' => if k' = k then v else m k'

/-- `GameTimerManager.stopTimer` (manager source lines 173-194): when a
scheduled timeout exists for the name, clear it and delete both the
timeout and the timer state; otherwise do nothing. -/
def stopTimer (s : TMState) (name : String) : TMState :=
  match s.timeouts name with
  | some _ =>
      { s with
        timeouts := setMap s.timeouts name none
        states := setMap s.states name none }
  | none => s

/-- `GameTimerManager.startTimer` (manager source lines 355-400): stop
any existing timer of the same name, record a fresh active state, and
schedule the expiry closure — which invokes the callback (`true`). -/
def startTimer (s : TMState) (name : String) (durationMs : ℚ) : TMState :=
  let s' := stopTimer s name
  { s' with
    timeouts := setMap s'.timeouts name (some true)
    states := setMap s'.states name
      (some { isActive := true
              startedAt := s.now
              duration := durationMs
              remainingTime := durationMs }) }

/-- `GameTimerManager.pauseTimer` (manager source lines 208-231): with
an active state and a scheduled timeout, capture the remaining time,
clear the timeout and mark the state inactive (the state entry is
kept). -/
def pauseTimer (s : TMState) (name : String) : TMState :=
  match s.states name, s.timeouts name with
  | some st, some _ =>
      if st.isActive then
        let elapsed := s.now - st.startedAt
        let remaining := max 0 (st.duration - elapsed)
        { s with
          timeouts := setMap s.timeouts name none
          states := setMap s.states name
            (some { st with isActive := false, remainingTime := remaining }) }

      else s
  | _, _ => s

/-- `GameTimerManager.resumeTimer` (manager source lines 236-270): with
an inactive state holding positive remaining time, re-arm the timer for
the remaining time.  The closure scheduled here only emits
`timer_expired` and deletes the entries — it never invokes the user
expiry callback (`false`). -/
def resumeTimer (s : TMState) (name : String) : TMState :=
  match s.states name with
  | some st =>
      if !st.isActive && st.remainingTime > 0 then
        { s with
          timeouts := setMap s.timeouts name (some false)
          states := setMap s.states name
            (some { st with
                    isActive := true
                    startedAt := s.now
                    duration := st.remainingTime }) }
      else s
  | none => s

/-- Expiry of the scheduled timeout for `name` (the Node timer firing).
The `startTimer` closure invokes the callback, emits `timer_expired`
and deletes both map entries; the `resumeTimer` closure emits
`timer_expired` and deletes both map entries without invoking the
callback. -/
def fireTimer (s : TMState) (name : String) : TMState :=
  match s.timeouts name with
  | some runsCallback =>
      if runsCallback then
        { s with
          invoked := s.invoked ++ [name]
          timeouts := setMap s.timeouts name none
          states := setMap s.states name none }
      else
        { s with
          timeouts := setMap s.timeouts name none
          states := setMap s.states name none }
  | none => s

/-- Advance the logical clock. -/
def tick (s : TMState) (dt : ℚ) : TMState := { s with now := s.now + dt }

/-- A manager with no timers at logical time `0`. -/
def TMState.initial : TMState :=
  { timeouts := fun _ => none, states := fun _ => none,
    invoked := [], now := 0 }

/-! ### Concrete fixtures -/

/-- Build a player record. -/
def mkP (id : String) (stack cb tb : ℚ) (st : PlayerStatus)
    (allIn : Bool := false) (ans : Option ℚ := none) : Player :=
  { id := id, stack := stack, currentBet := cb, totalBetInRound := tb,
    isAllIn := allIn, status := st, answer := ans }

/-- An empty pot ledger, as at round start. -/
def freshPot : RoundPot := { mainPot := 0, sidePots := [], totalPot := 0 }

/-- Two players with stack 100 about to ante 10. -/
def c1Round : Round :=
  { currentPhase := .BETTING1
    activePlayers := [mkP "A" 100 0 0 .waiting, mkP "B" 100 0 0 .waiting]
    pot := freshPot
    anteSize := 10 }

/-- Contributions 100 / 50 (all-in) / 100: the canonical multi-tier
all-in situation. -/
def c2Players : List Player :=
  [mkP "P1" 50 100 100 .active,
   mkP "P2" 0 50 50 .all_in true,
   mkP "P3" 50 100 100 .active]

/-- The round holding `c2Players`, all 250 contributed chips in the
main pot. -/
def c2Round : Round :=
  { currentPhase := .BETTING1
    activePlayers := c2Players
    pot := { mainPot := 250, sidePots := [], totalPot := 250 }
    anteSize := 50 }

/-- The all-in player of `c2Players`. -/
def c2AllIn : Player := mkP "P2" 0 50 50 .all_in true

/-- Three players tied at the correct answer with a pot of 100. -/
def c3Round : Round :=
  { currentPhase := .SHOWDOWN
    activePlayers :=
      [mkP "A" 0 0 0 .active false (some 100),
       mkP "B" 0 0 0 .active false (some 100),
       mkP "C" 0 0 0 .active false (some 100)]
    pot := { mainPot := 100, sidePots := [], totalPot := 100 }
    question := some { correctAnswer := 100 }
    anteSize := 10 }

/-- Two tied players (answers 95 and 105, correct 100) and one side pot
of 60 both are eligible for. -/
def c5Round : Round :=
  { currentPhase := .SHOWDOWN
    activePlayers :=
      [mkP "A" 0 0 0 .active false (some 95),
       mkP "B" 0 0 0 .active false (some 105)]
    pot := { mainPot := 40
             sidePots := [{ amount := 60, eligiblePlayers := ["A", "B"],
                            createdBy := "A" }]
             totalPot := 100 }
    question := some { correctAnswer := 100 }
    anteSize := 10 }

/-- Two ACTIVE players both at currentBet 100. -/
def c6TrueRound : Round :=
  { currentPhase := .BETTING1
    activePlayers := [mkP "A" 0 100 100 .active, mkP "B" 0 100 100 .active]
    pot := freshPot
    anteSize := 10 }

/-- One player at currentBet 100, one at 50 who can still act. -/
def c6FalseRound : Round :=
  { currentPhase := .BETTING1
    activePlayers := [mkP "A" 0 100 100 .active, mkP "B" 50 50 50 .active]
    pot := freshPot
    anteSize := 10 }

/-- Raise scenario: "A" (bet 0, stack 1000) facing a current maximum of
50 posted by "B", with ante size 50. -/
def c8Round : Round :=
  { currentPhase := .BETTING1
    activePlayers := [mkP "A" 1000 0 0 .active, mkP "B" 950 50 50 .active]
    pot := { mainPot := 50, sidePots := [], totalPot := 50 }
    anteSize := 50 }

/-- The raising player of `c8Round`. -/
def c8Raiser : Player := mkP "A" 1000 0 0 .active

/-- A round whose `activePlayers` list is empty. -/
def emptyRound : Round :=
  { currentPhase := .BETTING1
    activePlayers := []
    pot := freshPot
    anteSize := 10 }

/-! ### Helper lemmas -/

/-- Every element of the spread is at most `Math.max` of the spread. -/
theorem le_jsMax {x : ℚ} {xs : List ℚ} (h : x ∈ xs) :
    (x : WithBot ℚ) ≤ jsMax xs := by
  induction xs with
  | nil => cases h
  | cons y ys ih =>
      rcases List.mem_cons.mp h with rfl | hmem
      · exact le_max_left _ _
      · exact le_trans (ih hmem) (le_max_right _ _)

/-! ### C10: the two current-bet computations disagree on an empty
player list -/

/-- C10: for every round with an empty `activePlayers` list,
`BettingManager.getCurrentBet` returns `-Infinity` (the maximum of an
empty spread) while `GameValidator.getCurrentBet` returns `0`; the two
disagree. -/
theorem C10_currentBet_disagreement (r : Round)
    (h : r.activePlayers = []) :
    BettingManager.getCurrentBet (some r) = ⊥ ∧
    GameValidator.getCurrentBet r = 0 ∧
    BettingManager.getCurrentBet (some r) ≠
      ((GameValidator.getCurrentBet r : ℚ) : WithBot ℚ) := by
  refine ⟨?_, ?_, ?_⟩
  · simp [BettingManager.getCurrentBet, jsMax, h]
  · simp [GameValidator.getCurrentBet, h]
  · simp [BettingManager.getCurrentBet, GameValidator.getCurrentBet, jsMax, h]

/-- C10 witness: the disagreement at the concrete empty round. -/
theorem C10_currentBet_disagreement_witness :
    BettingManager.getCurrentBet (some emptyRound) = ⊥ ∧
    GameValidator.getCurrentBet emptyRound = 0 ∧
    BettingManager.getCurrentBet (some emptyRound) ≠
      ((GameValidator.getCurrentBet emptyRound : ℚ) : WithBot ℚ) :=
  C10_currentBet_disagreement emptyRound rfl

/-! ### C7: phase monotonicity -/

/-- C4 counterexample: `Game.determineWinners` scores correctAnswer 200,
answer 100 as accuracy 0, while the claimed formula
`max(0, 100 − (deviation / max(correctAnswer, 100)) × 100)` gives 50 —
so the claim fails for the `Game.ts` component. -/
theorem C4_accuracy_counterexample :
    gameAccuracy 200 100 = 0 ∧ specAccuracy 200 100 = 50 ∧
    gameAccuracy 200 100 ≠ specAccuracy 200 100 := by
  refine ⟨?_, ?_, ?_⟩ <;> norm_num [gameAccuracy, specAccuracy]

/-- C4 amended: `WinnerDeterminator.calculateAccuracy` computes the
claimed formula and then rounds it to two decimal places
(`Math.round(accuracy * 100) / 100`), while `Game.determineWinners`
computes `max(0, 100 − deviation)` with no normalization factor; the
two disagree (e.g. at correctAnswer 200, answer 100), and the rounding
makes even `calculateAccuracy` differ from the raw formula on
non-terminating values such as correctAnswer 150, answer 140. -/
theorem C4_accuracy_amended :
    (∀ c a : ℚ, calculateAccuracy c a =
      ((jsRound (specAccuracy c a * 100) : ℤ) : ℚ) / 100) ∧
    (∀ c a : ℚ, gameAccuracy c a = max 0 (100 - |c - a|)) ∧
    calculateAccuracy 150 140 = 9333 / 100 ∧
    specAccuracy 150 140 = 280 / 3 ∧
    calculateAccuracy 150 140 ≠ specAccuracy 150 140 := by
  refine ⟨fun c a => rfl, fun c a => rfl, ?_, ?_, ?_⟩
  · norm_num [calculateAccuracy, jsRound]
  · norm_num [specAccuracy]
  · norm_num [calculateAccuracy, specAccuracy, jsRound]

/-! ### C6: betting completion -/

/-- C6: `isBettingComplete` holds iff at most one non-folded player
remains, or every non-folded, non-all-in player's current bet equals
the maximum current bet of the round's player list; in particular it is
`true` for two ACTIVE players both at 100 and `false` when one is at
100 and one at 50 and can still act. -/
theorem C6_betting_completion :
    (∀ r : Round,
      isBettingComplete (some r) = true ↔
        ((r.activePlayers.filter (·.status ≠ PlayerStatus.folded)).length ≤ 1 ∨
          ∀ p ∈ r.activePlayers.filter (·.status ≠ PlayerStatus.folded),
            p.isAllIn = false →
              (p.currentBet : WithBot ℚ) =
                BettingManager.getCurrentBet (some r))) ∧
    isBettingComplete (some c6TrueRound) = true ∧
    isBettingComplete (some c6FalseRound) = false := by
  refine ⟨?_, by decide, by decide⟩
  intro r
  rw [isBettingComplete]
  split
  · next hlen => exact iff_of_true rfl (Or.inl hlen)
  · next hlen =>
      simp only [List.length_eq_zero, List.filter_eq_nil_iff, hlen, false_or,
        Bool.and_eq_true, Bool.not_eq_true', decide_eq_true_eq,
        not_and, decide_eq_true_iff]
      constructor
      · intro h p hp hallin
        have hle : (p.currentBet : WithBot ℚ) ≤
            BettingManager.getCurrentBet (some r) := by
          apply le_jsMax
          exact List.mem_map_of_mem _ (List.mem_of_mem_filter hp)
        have := h p hp
        rcases lt_or_eq_of_le hle with hlt | heq
        · exact absurd hallin (by simpa [hlt] using this)
        · exact heq
      · intro h p hp
        intro hlt
        by_contra hni
        have : p.isAllIn = false := by
          cases hb : p.isAllIn
          · rfl
          · simp [hb] at hni
        exact absurd (h p hp this) (ne_of_lt hlt)

/-! ### C3: pot distribution -/

/-- Summing a list of winners who all receive the same amount. -/
theorem sum_of_const_winAmount (l : List RoundWinner) (c : ℚ)
    (h : ∀ w ∈ l, w.winAmount = c) :
    (l.map (·.winAmount)).sum = l.length * c := by
  induction l with
  | nil => simp
  | cons w ws ih =>
      have hw := h w (by simp)
      have hrest := ih (fun w' hw' => h w' (by simp [hw']))
      simp [hw, hrest]
      ring

/-- Every winner produced by `determineWinners` receives exactly
`Math.floor(totalPot / winners.length)`. -/
theorem determineWinners_winAmount_const (r : Round) :
    ∀ w ∈ determineWinners r, w.winAmount =
      ((⌊r.pot.totalPot / ((determineWinners r).length : ℚ)⌋ : ℤ) : ℚ) := by
  intro w hw
  cases hq : r.question with
  | none => rw [determineWinners, hq] at hw; cases hw
  | some q =>
      cases he : eligibleForShowdown r with
      | nil => rw [determineWinners, hq, he] at hw; cases hw
      | cons p₀ rest =>
          rw [determineWinners, hq, he] at hw ⊢
          simp only [List.mem_map] at hw
          obtain ⟨p, _, rfl⟩ := hw
          simp [List.length_map]

/-- Explicit evaluation of the three-way-tie fixture: each of the three
winners is paid `⌊100 / 3⌋ = 33`. -/
theorem c3Round_winAmounts :
    (determineWinners c3Round).map (·.winAmount) = [33, 33, 33] := by
  have he : eligibleForShowdown c3Round =
      [mkP "A" 0 0 0 .active false (some 100),
       mkP "B" 0 0 0 .active false (some 100),
       mkP "C" 0 0 0 .active false (some 100)] := by
    simp [eligibleForShowdown, c3Round, mkP]
  rw [determineWinners, show c3Round.question = some ⟨100⟩ from rfl, he]
  norm_num [mkP, deviationOf, jsMinPos, calculateAccuracy, jsRound, c3Round]

/-- C3 counterexample: three tied winners of a pot of 100 are each paid
`⌊100 / 3⌋ = 33`; the paid total is 99, not the claimed 100 — the
remainder is never assigned. -/
theorem C3_distribution_counterexample :
    ((determineWinners c3Round).map (·.winAmount)).sum = 99 ∧
    c3Round.pot.totalPot = 100 ∧
    ((determineWinners c3Round).map (·.winAmount)).sum ≠
      c3Round.pot.totalPot := by
  have h99 : ((determineWinners c3Round).map (·.winAmount)).sum = 99 := by
    rw [c3Round_winAmounts]
    norm_num
  have h100 : c3Round.pot.totalPot = 100 := rfl
  refine ⟨h99, h100, ?_⟩
  rw [h99, h100]
  norm_num

/-- C3 amended: every winner receives `⌊pot / winnerCount⌋`; the total
paid out is `winnerCount · ⌊pot / winnerCount⌋`, which never exceeds
the pot but equals it only when the winner count divides the pot — the
remainder `pot mod winnerCount` is left unassigned. -/
theorem C3_distribution_amended (r : Round)
    (h : determineWinners r ≠ []) :
    (∀ w ∈ determineWinners r, w.winAmount =
      ((⌊r.pot.totalPot / ((determineWinners r).length : ℚ)⌋ : ℤ) : ℚ)) ∧
    ((determineWinners r).map (·.winAmount)).sum =
      ((determineWinners r).length : ℚ) *
        ((⌊r.pot.totalPot / ((determineWinners r).length : ℚ)⌋ : ℤ) : ℚ) ∧
    ((determineWinners r).map (·.winAmount)).sum ≤ r.pot.totalPot := by
  have hconst := determineWinners_winAmount_const r
  have hsum := sum_of_const_winAmount _ _ hconst
  refine ⟨hconst, hsum, ?_⟩
  rw [hsum]
  have hn : (0 : ℚ) < ((determineWinners r).length : ℚ) := by
    have : 0 < (determineWinners r).length :=
      List.length_pos.mpr h
    exact_mod_cast this
  calc ((determineWinners r).length : ℚ) *
        ((⌊r.pot.totalPot / ((determineWinners r).length : ℚ)⌋ : ℤ) : ℚ)
      ≤ ((determineWinners r).length : ℚ) *
        (r.pot.totalPot / ((determineWinners r).length : ℚ)) :=
        mul_le_mul_of_nonneg_left (Int.floor_le _) hn.le
    _ = r.pot.totalPot := by
        rw [mul_comm]
        exact div_mul_cancel₀ _ hn.ne'

/-- C3 witness: the amended statement instantiated at the concrete
three-way tie. -/
theorem C3_distribution_amended_witness :
    ((determineWinners c3Round).map (·.winAmount)).sum ≤
      c3Round.pot.totalPot :=
  (C3_distribution_amended c3Round (by
    intro h
    have h3 := c3Round_winAmounts
    rw [h] at h3
    cases h3)).2.2

/-! ### C5: winner selection -/

/-- `Math.min` folding never exceeds its starting value. -/
theorem jsMinPos_le_start : ∀ (xs : List ℚ) (x : ℚ), jsMinPos x xs ≤ x := by
  intro xs
  induction xs with
  | nil => intro x; simp [jsMinPos]
  | cons y ys ih =>
      intro x
      have h := ih (min x y)
      rw [jsMinPos] at h ⊢
      rw [List.foldl_cons]
      exact le_trans h (min_le_left _ _)

/-- `Math.min` folding is a lower bound of the folded list. -/
theorem jsMinPos_le_mem : ∀ (xs : List ℚ) (x : ℚ),
    ∀ y ∈ xs, jsMinPos x xs ≤ y := by
  intro xs
  induction xs with
  | nil => intro x y hy; cases hy
  | cons z zs ih =>
      intro x y hy
      rw [jsMinPos, List.foldl_cons]
      rcases List.mem_cons.mp hy with rfl | hmem
      · exact le_trans (jsMinPos_le_start zs _) (min_le_right _ _)
      · exact ih (min x z) y hmem

/-- `Math.min` folding attains its value at the start or in the list. -/
theorem jsMinPos_attained : ∀ (xs : List ℚ) (x : ℚ),
    jsMinPos x xs = x ∨ jsMinPos x xs ∈ xs := by
  intro xs
  induction xs with
  | nil => intro x; left; rfl
  | cons z zs ih =>
      intro x
      rw [jsMinPos, List.foldl_cons]
      rcases ih (min x z) with h | h
      · rw [jsMinPos] at h
        rw [h]
        rcases le_total x z with hxz | hzx
        · left; exact min_eq_left hxz
        · right
          rw [min_eq_right hzx]
          exact List.mem_cons_self _ _
      · right
        exact List.mem_cons_of_mem _ h

/-- The linear scan of `determineSidePotWinner` returns an element of
the scanned list. -/
theorem sidePotScan_mem (c : ℚ) : ∀ (rest : List Player) (best : Player),
    rest.foldl
      (fun acc p => if deviationOf c p < deviationOf c acc then p else acc)
      best ∈ best :: rest := by
  intro rest
  induction rest with
  | nil => intro best; exact List.mem_singleton.mpr rfl
  | cons p ps ih =>
      intro best
      rw [List.foldl_cons]
      rcases List.mem_cons.mp (ih (if deviationOf c p < deviationOf c best
          then p else best)) with h | h
      · rw [h]
        split
        · simp
        · simp
      · exact List.mem_cons_of_mem _ (List.mem_cons_of_mem _ h)

/-- The linear scan of `determineSidePotWinner` minimizes the deviation
over the scanned list. -/
theorem sidePotScan_min (c : ℚ) : ∀ (rest : List Player) (best : Player),
    ∀ q ∈ best :: rest,
      deviationOf c
        (rest.foldl
          (fun acc p => if deviationOf c p < deviationOf c acc then p else acc)
          best) ≤ deviationOf c q := by
  intro rest
  induction rest with
  | nil =>
      intro best q hq
      rcases List.mem_singleton.mp hq with rfl
      exact le_refl _
  | cons p ps ih =>
      intro best q hq
      rw [List.foldl_cons]
      set best' := if deviationOf c p < deviationOf c best then p else best
        with hbest'
      have hb : deviationOf c best' ≤ deviationOf c best := by
        rw [hbest']
        split
        · next hlt => exact le_of_lt hlt
        · exact le_refl _
      have hp : deviationOf c best' ≤ deviationOf c p := by
        rw [hbest']
        split
        · exact le_refl _
        · next hnlt => exact le_of_not_lt hnlt
      have hhead := ih best' best' (List.mem_cons_self _ _)
      rcases List.mem_cons.mp hq with rfl | hq'
      · exact le_trans hhead hb
      · rcases List.mem_cons.mp hq' with rfl | hq'
        · exact le_trans hhead hp
        · exact ih best' q (List.mem_cons_of_mem _ hq')

/-- The two players of `c5Round`. -/
def c5A : Player := mkP "A" 0 0 0 .active false (some 95)

/-- The second, equally accurate player of `c5Round`. -/
def c5B : Player := mkP "B" 0 0 0 .active false (some 105)

/-- Evaluation of the tied-side-pot fixture: the main pot is split
between both tied players, but the whole side pot of 60 goes to "A"
alone. -/
theorem c5Round_eval :
    determineWinnersWithSidePots c5Round =
      [{ playerId := "A", winAmount := 50, potType := "main",
         accuracy := calculateAccuracy 100 95, deviation := 5 },
       { playerId := "B", winAmount := 50, potType := "main",
         accuracy := calculateAccuracy 100 105, deviation := 5 },
       { playerId := "A", winAmount := 60, potType := "side",
         accuracy := calculateAccuracy 100 95, deviation := 5 }] := by
  have he : eligibleForShowdown c5Round = [c5A, c5B] := by
    simp [eligibleForShowdown, c5Round, mkP, c5A, c5B]
  have hmain : determineWinners c5Round =
      [{ playerId := "A", winAmount := 50, potType := "main",
         accuracy := calculateAccuracy 100 95, deviation := 5 },
       { playerId := "B", winAmount := 50, potType := "main",
         accuracy := calculateAccuracy 100 105, deviation := 5 }] := by
    rw [determineWinners, show c5Round.question = some ⟨100⟩ from rfl, he]
    norm_num [c5A, c5B, mkP, deviationOf, jsMinPos, c5Round]
  have helig : sidePotEligible c5Round
      { amount := 60, eligiblePlayers := ["A", "B"], createdBy := "A" } =
      [c5A, c5B] := by
    simp [sidePotEligible, c5Round, mkP, c5A, c5B]
  rw [determineWinnersWithSidePots,
    show c5Round.pot.sidePots =
      [{ amount := 60, eligiblePlayers := ["A", "B"], createdBy := "A" }]
      from rfl]
  rw [List.foldl_cons, List.foldl_nil, helig, hmain]
  simp only [determineSidePotWinner]
  norm_num [c5A, c5B, mkP, deviationOf, c5Round]

/-- C5 counterexample: in `c5Round` the players "A" and "B" tie at
deviation 5 and both are eligible for the side pot, yet the side pot's
whole amount is awarded to "A" alone — tied players are not side-pot
winners together, contradicting the claim. -/
theorem C5_winner_selection_counterexample :
    deviationOf 100 c5A = deviationOf 100 c5B ∧
    ((determineWinnersWithSidePots c5Round).filter
      (·.potType = "side")).map (fun w => (w.playerId, w.winAmount)) =
      [("A", 60)] ∧
    ∀ w ∈ determineWinnersWithSidePots c5Round,
      w.potType = "side" → w.playerId ≠ "B" := by
  refine ⟨by norm_num [deviationOf, c5A, c5B, mkP], ?_, ?_⟩
  · rw [c5Round_eval]
    simp
  · intro w hw hside
    rw [c5Round_eval] at hw
    simp only [List.mem_cons, List.not_mem_nil, or_false] at hw
    rcases hw with rfl | rfl | rfl
    · simp at hside
    · simp at hside
    · simp

/-- C5 amended: the main pot keeps the claimed behaviour — its winners
are exactly the non-folded answer-havers of minimum deviation, ties
included — but each side pot is awarded in full to a single winner (a
minimum-deviation eligible player, the first such in list order), so
side-pot ties are not shared; a tier with no eligible player yields no
winner. -/
theorem C5_winner_selection_amended :
    (∀ (r : Round) (q : Question) (p₀ : Player) (rest : List Player),
      r.question = some q → eligibleForShowdown r = p₀ :: rest →
      ((determineWinners r).map (·.playerId) =
        ((p₀ :: rest).filter (fun p => deviationOf q.correctAnswer p =
          jsMinPos (deviationOf q.correctAnswer p₀)
            (rest.map (deviationOf q.correctAnswer)))).map (·.id) ∧
      ∀ p ∈ p₀ :: rest,
        jsMinPos (deviationOf q.correctAnswer p₀)
          (rest.map (deviationOf q.correctAnswer)) ≤
            deviationOf q.correctAnswer p)) ∧
    (∀ (elig : List Player) (c amt : ℚ) (w : RoundWinner),
      determineSidePotWinner elig c amt = some w →
      w.winAmount = amt ∧
      (∃ p ∈ elig, p.id = w.playerId ∧ w.deviation = deviationOf c p) ∧
      ∀ p ∈ elig, w.deviation ≤ deviationOf c p) ∧
    (∀ c amt : ℚ, determineSidePotWinner [] c amt = none) := by
  refine ⟨?_, ?_, fun c amt => rfl⟩
  · intro r q p₀ rest hq he
    constructor
    · rw [determineWinners, hq, he]
      simp [List.map_map, Function.comp]
    · intro p hp
      rcases List.mem_cons.mp hp with rfl | hmem
      · exact jsMinPos_le_start _ _
      · exact jsMinPos_le_mem _ _ _ (List.mem_map_of_mem _ hmem)
  · intro elig c amt w h
    cases elig with
    | nil => cases h
    | cons best rest =>
        rw [determineSidePotWinner] at h
        injection h with h
        subst h
        refine ⟨rfl, ⟨_, sidePotScan_mem c rest best, rfl, rfl⟩, ?_⟩
        intro p hp
        exact sidePotScan_min c rest best p hp

/-- C5 witness: the amended side-pot clause at the concrete tied pot —
the single winner is "A" with the full 60, whose deviation 5 is minimal
among both eligible players. -/
theorem C5_winner_selection_amended_witness :
    determineSidePotWinner [c5A, c5B] 100 60 =
      some { playerId := "A", winAmount := 60, potType := "side",
             accuracy := calculateAccuracy 100 95, deviation := 5 } ∧
    ∀ p ∈ [c5A, c5B], (5 : ℚ) ≤ deviationOf 100 p := by
  have heval : determineSidePotWinner [c5A, c5B] 100 60 =
      some { playerId := "A", winAmount := 60, potType := "side",
             accuracy := calculateAccuracy 100 95, deviation := 5 } := by
    simp only [determineSidePotWinner]
    norm_num [c5A, c5B, mkP, deviationOf]
  refine ⟨heval, ?_⟩
  have h := (C5_winner_selection_amended.2.1 [c5A, c5B] 100 60 _ heval).2.2
  simpa using h

/-! ### C8: raise validation and settlement -/

/-- The claim's acceptance condition for RAISE, exactly as worded:
amount defined, greater than the current maximum, delta within the
stack, and at least `currentMax + anteSize`. -/
def claimRaiseAccept (anteSize : ℚ) (p : Player) (amount : Option ℚ)
    (currentMax : ℚ) : Prop :=
  ∃ a, amount = some a ∧ currentMax < a ∧ a - p.currentBet ≤ p.stack ∧
    currentMax + anteSize ≤ a

/-- C8 counterexample: in `c8Round` (current maximum 50, ante size 50)
the action RAISE 60 violates the claimed minimum-raise rule
(60 < 50 + 50), yet `BettingManager.validateSpecificAction` accepts it
— so RAISE acceptance is not equivalent to the claimed condition. -/
theorem C8_raise_counterexample :
    BettingManager.validateSpecificAction c8Round c8Raiser
      { playerId := "A", type := .raise, amount := some 60 } = true ∧
    ¬ claimRaiseAccept c8Round.anteSize c8Raiser (some 60) 50 ∧
    GameValidator.getCurrentBet c8Round = 50 := by
  have hcb : BettingManager.getCurrentBet (some c8Round) =
      ((50 : ℚ) : WithBot ℚ) := by
    simp [BettingManager.getCurrentBet, jsMax, c8Round, mkP]
  refine ⟨?_, ?_, ?_⟩
  · rw [BettingManager.validateSpecificAction]
    simp only [hcb, c8Raiser, mkP]
    norm_num
    exact WithBot.coe_lt_coe.mpr (by norm_num)
  · rintro ⟨a, ha, -, -, hmin⟩
    rw [Option.some.injEq] at ha
    subst ha
    rw [show c8Round.anteSize = 50 from rfl] at hmin
    norm_num at hmin
  · simp [GameValidator.getCurrentBet, jsMax, c8Round, mkP]
    rfl

/-- C8 amended: the claimed four-part rule (including the minimum
raise) is enforced only by `GameValidator.validateRaise`;
`BettingManager` accepts any defined amount above the current maximum
that the stack can cover, with no minimum-raise rule, and the `Game`
class additionally demands `stack ≥ amount` (the whole amount rather
than the delta); on success `processRaise` posts exactly
`amount − currentBet` to the main and total pots, and an invalid or
unmatched action leaves the round unchanged. -/
theorem C8_raise_amended :
    (∀ (ante : ℚ) (p : Player) (amt : Option ℚ) (cb : ℚ),
      GameValidator.validateRaise ante p amt cb = true ↔
        claimRaiseAccept ante p amt cb) ∧
    (∀ (r : Round) (p : Player) (pid : String) (a : ℚ),
      BettingManager.validateSpecificAction r p
        { playerId := pid, type := .raise, amount := some a } = true ↔
        (BettingManager.getCurrentBet (some r) < (a : WithBot ℚ) ∧
          a - p.currentBet ≤ p.stack)) ∧
    (∀ (p : Player) (a : ℚ) (cb : WithBot ℚ),
      GameRaiseValid p (some a) cb = true ↔ (cb < (a : WithBot ℚ) ∧
        a ≤ p.stack)) ∧
    (∀ (r : Round) (pid : String) (a : ℚ) (p : Player),
      findPlayer r.activePlayers pid = some p →
      (processRaise r pid a).pot.mainPot =
        r.pot.mainPot + (a - p.currentBet) ∧
      (processRaise r pid a).pot.totalPot =
        r.pot.totalPot + (a - p.currentBet)) ∧
    (∀ (r : Round) (act : PlayerAction) (p : Player),
      findPlayer r.activePlayers act.playerId = some p →
      BettingManager.validateSpecificAction r p act = false →
      processAction r act = r) ∧
    (∀ (r : Round) (act : PlayerAction),
      findPlayer r.activePlayers act.playerId = none →
      processAction r act = r) := by
  refine ⟨?_, ?_, ?_, ?_, ?_, ?_⟩
  · intro ante p amt cb
    cases amt with
    | none => simp [GameValidator.validateRaise, claimRaiseAccept]
    | some a =>
        simp only [GameValidator.validateRaise, claimRaiseAccept,
          Option.some.injEq]
        constructor
        · intro h
          split_ifs at h with h1 h2 h3
          exact ⟨a, rfl, not_le.mp h1, not_lt.mp h2, not_lt.mp h3⟩
        · rintro ⟨b, hb, hlt, hst, hmin⟩
          cases hb
          split_ifs with h1 h2 h3
          · exact absurd hlt (not_lt.mpr h1)
          · exact absurd hst (not_le.mpr (by linarith))
          · exact absurd hmin (not_le.mpr h3)
          · rfl
  · intro r p pid a
    simp [BettingManager.validateSpecificAction]
  · intro p a cb
    simp [GameRaiseValid]
  · intro r pid a p h
    simp [processRaise, h]
  · intro r act p hfind hval
    simp only [processAction, hfind]
    simp [hval]
  · intro r act hfind
    simp only [processAction, hfind]

/-- C8 witness: the amended clauses at concrete inputs — the validator
accepts RAISE 110 over maximum 50 with ante 50, and a rejected CHECK by
the player at bet 0 leaves `c8Round` unchanged. -/
theorem C8_raise_amended_witness :
    GameValidator.validateRaise 50 c8Raiser (some 110) 50 = true ∧
    processAction c8Round { playerId := "A", type := .check } = c8Round := by
  constructor
  · exact (C8_raise_amended.1 50 c8Raiser (some 110) 50).mpr
      ⟨110, rfl, by norm_num, by norm_num [c8Raiser, mkP], by norm_num⟩
  · exact C8_raise_amended.2.2.2.2.1 c8Round
      { playerId := "A", type := .check } c8Raiser (by decide) (by decide)

/-! ### C9: timer lifecycle -/

/-- Map update at the updated key. -/
theorem setMap_same {β : Type} (m : String → Option β) (k : String)
    (v : Option β) : setMap m k v k = v := by
  simp [setMap]

/-- `stopTimer` never touches the invocation log. -/
theorem stopTimer_invoked (s : TMState) (n : String) :
    (stopTimer s n).invoked = s.invoked := by
  rw [stopTimer]
  split <;> rfl

/-- A timer armed for 10 time units. -/
def c9Started : TMState := startTimer TMState.initial "t" 10

/-- The same timer paused after 4 units (6 remaining) and resumed. -/
def c9Resumed : TMState :=
  resumeTimer (pauseTimer (tick c9Started 4) "t") "t"

/-- After the pause/resume, the scheduled timeout is the `resumeTimer`
closure, which does not invoke the user callback. -/
theorem c9Resumed_eval :
    c9Resumed.timeouts "t" = some false ∧ c9Resumed.invoked = [] := by
  have hpause : pauseTimer (tick c9Started 4) "t" =
      { timeouts := setMap (setMap (fun _ => none) "t" (some true)) "t" none
        states := setMap (setMap (fun _ => none) "t"
          (some { isActive := true, startedAt := 0, duration := 10,
                  remainingTime := 10 })) "t"
          (some { isActive := false, startedAt := 0, duration := 10,
                  remainingTime := 6 })
        invoked := []
        now := 4 } := by
    rw [pauseTimer]
    simp only [c9Started, startTimer, stopTimer, tick, TMState.initial,
      setMap_same]
    norm_num
  rw [c9Resumed, hpause, resumeTimer]
  simp only [setMap_same]
  norm_num
  simp [setMap]

/-- C9 counterexample: a timer started for 10 units, paused at 4 and
resumed, then truly expiring, never invokes its expiry callback — the
invocation log stays empty, not "exactly once" — although the timer
does remove itself; a direct (unpaused) expiry does invoke the callback
once. -/
theorem C9_timer_counterexample :
    (fireTimer c9Resumed "t").invoked = [] ∧
    (fireTimer c9Resumed "t").timeouts "t" = none ∧
    (fireTimer c9Resumed "t").states "t" = none ∧
    (fireTimer c9Started "t").invoked = ["t"] := by
  obtain ⟨hto, hinv⟩ := c9Resumed_eval
  have hfire : fireTimer c9Resumed "t" =
      { c9Resumed with
        timeouts := setMap c9Resumed.timeouts "t" none
        states := setMap c9Resumed.states "t" none } := by
    rw [fireTimer, hto]
    norm_num
  refine ⟨?_, ?_, ?_, ?_⟩
  · rw [hfire]; exact hinv
  · rw [hfire]; simp [setMap]
  · rw [hfire]; simp [setMap]
  · have hto' : c9Started.timeouts "t" = some true := by
      simp [c9Started, startTimer, stopTimer, TMState.initial, setMap_same]
    rw [fireTimer, hto']
    simp [c9Started, startTimer, stopTimer_invoked, TMState.initial]

/-- C9 amended: starting a timer under an existing name does cancel and
replace the prior timer, and a direct expiry invokes the callback
exactly once and self-removes; but an expiry reached after a pause
followed by a resume does not invoke the expiry callback at all — the
resume-path closure only emits the expiry event and removes the timer. -/
theorem C9_timer_amended :
    (∀ (s : TMState) (n : String) (d : ℚ),
      (startTimer s n d).timeouts n = some true ∧
      (startTimer s n d).states n =
        some { isActive := true, startedAt := s.now, duration := d,
               remainingTime := d } ∧
      (startTimer s n d).invoked = s.invoked) ∧
    (∀ (s : TMState) (n : String) (d : ℚ),
      (fireTimer (startTimer s n d) n).invoked = s.invoked ++ [n] ∧
      (fireTimer (startTimer s n d) n).timeouts n = none ∧
      (fireTimer (startTimer s n d) n).states n = none) ∧
    (∀ (s : TMState) (n : String),
      s.timeouts n = some false →
      (fireTimer s n).invoked = s.invoked ∧
      (fireTimer s n).timeouts n = none ∧
      (fireTimer s n).states n = none) ∧
    (∀ (s : TMState) (n : String) (st : TimerEntry),
      s.states n = some st → st.isActive = false → 0 < st.remainingTime →
      (resumeTimer s n).timeouts n = some false) := by
  refine ⟨?_, ?_, ?_, ?_⟩
  · intro s n d
    exact ⟨setMap_same _ _ _, setMap_same _ _ _, stopTimer_invoked s n⟩
  · intro s n d
    have hto : (startTimer s n d).timeouts n = some true := setMap_same _ _ _
    rw [fireTimer, hto]
    refine ⟨?_, ?_, ?_⟩
    · simp [startTimer, stopTimer_invoked]
    · simp [setMap_same]
    · simp [setMap_same]
  · intro s n hto
    rw [fireTimer, hto]
    exact ⟨rfl, setMap_same _ _ _, setMap_same _ _ _⟩
  · intro s n st hst hact hrem
    simp only [resumeTimer, hst]
    rw [if_pos]
    · exact setMap_same _ _ _
    · simp [hact, hrem]

/-- C9 witness: the amended no-callback clause applied to the concrete
paused-and-resumed timer. -/
theorem C9_timer_amended_witness :
    (fireTimer c9Resumed "t").invoked = c9Resumed.invoked ∧
    (fireTimer c9Resumed "t").timeouts "t" = none ∧
    (fireTimer c9Resumed "t").states "t" = none :=
  C9_timer_amended.2.2.1 c9Resumed "t" c9Resumed_eval.1

/-! ### C2: side-pot construction -/

/-- The spec's tiered construction at the `c2Players` contributions
(100 / 50-all-in / 100): a lowest tier (main pot) of `50 × 3 = 150` and
one side pot `(100 − 50) × 2 = 100`. -/
theorem specBuildPots_c2 :
    specBuildPots c2Players =
      [(150, ["P1", "P2", "P3"]), (100, ["P1", "P2", "P3"])] := by
  rw [specBuildPots]
  simp only [c2Players, mkP]
  simp [List.filter_cons, List.dedup_cons_of_not_mem, List.dedup_cons_of_mem,
    List.insertionSort, List.orderedInsert, tierPots]
  norm_num [tierPots]

/-- C2: at the failing input (contributions 100 / 50-all-in / 100) the
code's `createSidePot` produces a single flat side pot of
`allInPlayer.currentBet × eligibleCount = 50 × 3 = 150` and leaves the
main pot untouched, whereas the tiered construction mandated by the
claim yields side-pot amounts `[100]` (above a lowest tier of 150) —
the flat formula the claim forbids is exactly what the code computes. -/
theorem C2_sidepot_code_bug :
    (createSidePot c2Round c2AllIn).pot.sidePots.map (·.amount) = [150] ∧
    (createSidePot c2Round c2AllIn).pot.mainPot = c2Round.pot.mainPot ∧
    ((specBuildPots c2Players).drop 1).map (·.1) = [100] ∧
    (createSidePot c2Round c2AllIn).pot.sidePots.map (·.amount) ≠
      ((specBuildPots c2Players).drop 1).map (·.1) := by
  have hcode : (createSidePot c2Round c2AllIn).pot.sidePots.map (·.amount) =
      [150] := by
    simp [createSidePot, c2Round, c2Players, mkP, c2AllIn]
    norm_num
  have hspec : ((specBuildPots c2Players).drop 1).map (·.1) = [100] := by
    rw [specBuildPots_c2]
    rfl
  refine ⟨hcode, rfl, hspec, ?_⟩
  rw [hcode, hspec]
  norm_num

/-! ### C1: chip conservation -/

/-- Updating the first player found by id changes the total-bet sum by
exactly that player's delta. -/
theorem sum_totalBet_updateFirst :
    ∀ (ps : List Player) (pid : String) (f : Player → Player) (p : Player),
      findPlayer ps pid = some p →
      ((updateFirst ps pid f).map (·.totalBetInRound)).sum =
        (ps.map (·.totalBetInRound)).sum +
          ((f p).totalBetInRound - p.totalBetInRound) := by
  intro ps
  induction ps with
  | nil => intro pid f p h; cases h
  | cons q rest ih =>
      intro pid f p h
      rw [findPlayer, List.find?_cons] at h
      rw [updateFirst]
      by_cases hq : q.id = pid
      · rw [if_pos hq]
        rw [decide_eq_true hq] at h
        injection h with h
        subst h
        simp only [List.map_cons, List.sum_cons]
        ring
      · rw [if_neg hq]
        rw [decide_eq_false hq] at h
        have := ih pid f p h
        simp only [List.map_cons, List.sum_cons, this]
        ring

/-- `processCall` leaves the side-pot list untouched. -/
theorem processCall_sidePots (r : Round) (pid : String) :
    (processCall r pid).pot.sidePots = r.pot.sidePots := by
  rw [processCall]
  split
  · rfl
  · split
    · rfl
    · rfl

/-- No player action changes the side-pot list. -/
theorem processAction_sidePots (r : Round) (a : PlayerAction) :
    (processAction r a).pot.sidePots = r.pot.sidePots := by
  rw [processAction]
  split
  · rfl
  · split
    · split
      · rfl
      · exact processCall_sidePots r a.playerId
      · split
        · rw [processRaise]
          split
          · rfl
          · rfl
        · rfl
      · rw [processAllIn]
        split
        · rfl
        · rfl
      · rfl
      · rfl
    · rfl

/-- A totals-preserving update of the first matching player leaves the
total-bet sum unchanged. -/
theorem sum_totalBet_updateFirst_keep :
    ∀ (ps : List Player) (pid : String) (f : Player → Player),
      (∀ q, (f q).totalBetInRound = q.totalBetInRound) →
      ((updateFirst ps pid f).map (·.totalBetInRound)).sum =
        (ps.map (·.totalBetInRound)).sum := by
  intro ps
  induction ps with
  | nil => intro pid f hf; rfl
  | cons q rest ih =>
      intro pid f hf
      rw [updateFirst]
      by_cases hq : q.id = pid
      · rw [if_pos hq]
        simp only [List.map_cons, List.sum_cons, hf q]
      · rw [if_neg hq]
        simp only [List.map_cons, List.sum_cons, ih pid f hf]

/-- `processCall` preserves the main-pot/total-bet balance. -/
theorem processCall_balanced (r : Round) (pid : String)
    (hbal : potBalanced r) : potBalanced (processCall r pid) := by
  rw [potBalanced, contributedTotal] at hbal
  rw [processCall]
  split
  · exact hbal
  · next cb hcb =>
      split
      · exact hbal
      · next p hfind =>
          show r.pot.mainPot + min (cb - p.currentBet) p.stack =
            ((updateFirst r.activePlayers pid
              (callStep (min (cb - p.currentBet) p.stack))).map
                (·.totalBetInRound)).sum
          rw [sum_totalBet_updateFirst _ _ _ p hfind, ← hbal]
          simp only [callStep]
          ring

/-- `processRaise` preserves the main-pot/total-bet balance. -/
theorem processRaise_balanced (r : Round) (pid : String) (amount : ℚ)
    (hbal : potBalanced r) : potBalanced (processRaise r pid amount) := by
  rw [potBalanced, contributedTotal] at hbal
  rw [processRaise]
  split
  · exact hbal
  · next p hfind =>
      show r.pot.mainPot + (amount - p.currentBet) =
        ((updateFirst r.activePlayers pid (raiseStep amount)).map
          (·.totalBetInRound)).sum
      rw [sum_totalBet_updateFirst _ _ _ p hfind, ← hbal]
      simp only [raiseStep]
      ring

/-- `processAllIn` preserves the main-pot/total-bet balance. -/
theorem processAllIn_balanced (r : Round) (pid : String)
    (hbal : potBalanced r) : potBalanced (processAllIn r pid) := by
  rw [potBalanced, contributedTotal] at hbal
  rw [processAllIn]
  split
  · exact hbal
  · next p hfind =>
      show r.pot.mainPot + p.stack =
        ((updateFirst r.activePlayers pid allInStep).map
          (·.totalBetInRound)).sum
      rw [sum_totalBet_updateFirst _ _ _ p hfind, ← hbal]
      simp only [allInStep]
      ring

/-- `processFold` preserves the main-pot/total-bet balance. -/
theorem processFold_balanced (r : Round) (pid : String)
    (hbal : potBalanced r) : potBalanced (processFold r pid) := by
  rw [potBalanced, contributedTotal] at hbal
  show r.pot.mainPot =
    ((updateFirst r.activePlayers pid
      (fun p => { p with status := .folded })).map (·.totalBetInRound)).sum
  rw [sum_totalBet_updateFirst_keep r.activePlayers pid
    (fun p => { p with status := .folded }) (fun q => rfl), ← hbal]

/-- Any single player action — validated or rejected — preserves the
balance between the main pot and the players' total bets. -/
theorem processAction_balanced (r : Round) (a : PlayerAction)
    (hbal : potBalanced r) : potBalanced (processAction r a) := by
  rw [processAction]
  split
  · exact hbal
  · split
    · split
      · exact hbal
      · exact processCall_balanced r a.playerId hbal
      · split
        · next amount heq => exact processRaise_balanced r a.playerId amount hbal
        · exact hbal
      · exact processAllIn_balanced r a.playerId hbal
      · exact processFold_balanced r a.playerId hbal
      · exact hbal
    · exact hbal

/-- Ante collection from a round with an empty main pot establishes the
balance: each player's total bet is assigned their posted ante. -/
theorem processAntePhase_balanced (r : Round) (h0 : r.pot.mainPot = 0) :
    potBalanced (processAntePhase r) := by
  rw [potBalanced, processAntePhase, contributedTotal]
  simp only [List.map_map, h0, zero_add]
  rfl

/-- A sequence of player actions preserves the balance. -/
theorem foldl_processAction_balanced :
    ∀ (acts : List PlayerAction) (r : Round), potBalanced r →
      potBalanced (acts.foldl processAction r) := by
  intro acts
  induction acts with
  | nil => intro r h; exact h
  | cons a rest ih =>
      intro r h
      exact ih _ (processAction_balanced r a h)

/-- A sequence of player actions never touches the side-pot list. -/
theorem foldl_processAction_sidePots :
    ∀ (acts : List PlayerAction) (r : Round),
      (acts.foldl processAction r).pot.sidePots = r.pot.sidePots := by
  intro acts
  induction acts with
  | nil => intro r; rfl
  | cons a rest ih =>
      intro r
      rw [List.foldl_cons, ih, processAction_sidePots]

/-- C1 counterexample: from a fresh two-player round with ante 10, the
operation sequence "collect antes, then `createSidePot` for player A"
yields a ledger of `mainPot + Σ sidePots = 20 + 20 = 40` against total
contributions of 20: `createSidePot` pushes a side pot without moving
any chips out of the main pot, so the claimed invariant fails on a
sequence that includes it. -/
theorem C1_chip_conservation_counterexample :
    ledgerTotal (runOps c1Round [.ante, .sidePot "A"]) = 40 ∧
    contributedTotal (runOps c1Round [.ante, .sidePot "A"]) = 20 ∧
    ledgerTotal (runOps c1Round [.ante, .sidePot "A"]) ≠
      contributedTotal (runOps c1Round [.ante, .sidePot "A"]) := by
  have hante : applyOp c1Round .ante =
      { currentPhase := .BETTING1
        activePlayers :=
          [mkP "A" 90 10 10 .active false none, mkP "B" 90 10 10 .active false none]
        pot := { mainPot := 20, sidePots := [], totalPot := 20 }
        anteSize := 10 } := by
    rw [applyOp, processAntePhase]
    simp [c1Round, mkP, freshPot, anteStep]
    norm_num
  have hrun : runOps c1Round [.ante, .sidePot "A"] =
      applyOp (applyOp c1Round .ante) (.sidePot "A") := rfl
  rw [hrun, hante]
  rw [applyOp]
  simp [findPlayer, createSidePot, mkP, ledgerTotal, contributedTotal,
    List.filter_cons]
  norm_num

/-- C1 amended: over sequences made of the ante collection followed by
any player actions (CHECK, CALL, RAISE, ALL_IN, FOLD, valid or
rejected), the ledger is conserved: `mainPot = Σ totalBetInRound` and
the side-pot list never changes, so with no `createSidePot` call the
full equation `mainPot + Σ sidePots = Σ totalBetInRound` holds;
`createSidePot` itself breaks the combined equation (see the
counterexample). -/
theorem C1_chip_conservation_amended (r0 : Round)
    (acts : List PlayerAction) (h0 : r0.pot.mainPot = 0) :
    potBalanced (acts.foldl processAction (processAntePhase r0)) ∧
    (acts.foldl processAction (processAntePhase r0)).pot.sidePots =
      r0.pot.sidePots ∧
    (r0.pot.sidePots = [] →
      ledgerTotal (acts.foldl processAction (processAntePhase r0)) =
        contributedTotal (acts.foldl processAction (processAntePhase r0))) := by
  have hbal := foldl_processAction_balanced acts _
    (processAntePhase_balanced r0 h0)
  have hside : (acts.foldl processAction (processAntePhase r0)).pot.sidePots =
      r0.pot.sidePots := by
    rw [foldl_processAction_sidePots]
    rfl
  refine ⟨hbal, hside, ?_⟩
  intro hnil
  rw [ledgerTotal, hside, hnil]
  simpa using hbal

/-- The raise-to-30 action of player A used by the C1 witness. -/
def c1RaiseAct : PlayerAction :=
  { playerId := "A", type := .raise, amount := some 30 }

/-- C1 witness: the amended conservation at the concrete two-player
round after the ante and a raise to 30 by player A. -/
theorem C1_chip_conservation_amended_witness :
    ledgerTotal ([c1RaiseAct].foldl processAction
      (processAntePhase c1Round)) =
    contributedTotal ([c1RaiseAct].foldl processAction
      (processAntePhase c1Round)) :=
  (C1_chip_conservation_amended c1Round [c1RaiseAct] rfl).2.2 rfl

end QuizPoker
